import Mathlib

/-!
Verification of the claim-risk document pipeline
(`src/utils/text_preprocessing.py`, `src/document_processor.py`,
`src/retriever.py`) against its natural-language specification.

The Python source is shallowly embedded: pure functions become Lean
functions over `String` / `List Char`; external collaborators (PDF
loader, the langchain text splitter, BM25 scoring and the embedding
model) are passed in as explicit oracles or failure-injection
parameters; Python exceptions become `Except`.  Text is modelled at the
ASCII level (Python's `str.lower`, `str.isalnum`, `str.split` and
`re`'s `\s`, `\d`, `[A-Z]` classes are used by the source only on
ASCII-relevant data; the Lean classes below agree with CPython on the
ASCII range).
-/

/-! ## Python primitive string operations -/

/-- Python whitespace characters (ASCII fragment relevant to `str.split`,
`str.strip` and the regex class `\s`). -/
def pyIsSpace (c : Char) : Bool :=
  c = ' ' || c = '\t' || c = '\n' || c = '\r' || c = '\x0b' || c = '\x0c'

/-- ASCII model of Python's `str.lower`. -/
def pyLower (s : String) : String :=
  String.mk (s.data.map Char.toLower)

/-- Python's `str.strip()` on a character list: drop whitespace at both ends. -/
def pyStrip (l : List Char) : List Char :=
  ((l.dropWhile pyIsSpace).reverse.dropWhile pyIsSpace).reverse

/-- Splitter on a character predicate, keeping empty pieces
(the semantics of repeatedly cutting the list at every separator
character; CPython's `str.split(sep)` for a one-character `sep` is this
with `p = (· = sep)`, and `str.split()` is this followed by dropping
empty pieces). -/
def splitOnPred (p : Char → Bool) : List Char → List (List Char)
  | [] => [[]]
  | c :: rest =>
    if p c then [] :: splitOnPred p rest
    else
      match splitOnPred p rest with
      | [] => [[c]]
      | h :: t => (c :: h) :: t

/-- Python's `str.split()` (no argument): split on whitespace runs,
dropping empty pieces. -/
def pyWords (l : List Char) : List (List Char) :=
  (splitOnPred pyIsSpace l).filter (fun w => !w.isEmpty)

/-- Python's `needle in haystack` substring test. -/
def strContains (needle hay : List Char) : Bool :=
  match hay with
  | [] => needle.isEmpty
  | _ :: t => needle.isPrefixOf hay || strContains needle t

/-- `os.path.basename` for forward-slash paths: everything after the
last slash. -/
def pyBasename (path : String) : String :=
  String.mk ((path.data.reverse.takeWhile (fun c => c != '/')).reverse)

/-! ## `clean_text` (`src/utils/text_preprocessing.py`, lines 2-8) -/

/-- The punctuation allow-list `'. ,?!-()[]{}:;'` of `clean_text`
(the two brace characters are written by code point). -/
def allowlist : List Char :=
  ['.', ' ', ',', '?', '!', '-', '(', ')', '[', ']',
   Char.ofNat 123, Char.ofNat 125, ':', ';']

/-- The character filter of `clean_text`:
`char.isalnum() or char in '. ,?!-()[]{}:;'`. -/
def allowedChar (c : Char) : Bool :=
  c.isAlphanum || allowlist.contains c

/-- Core of `clean_text` on character lists:
`" ".join(text.split())` followed by the character filter. -/
def cleanList (l : List Char) : List Char :=
  (List.intercalate [' '] (pyWords l)).filter allowedChar

/-- `clean_text` (text preprocessing, lines 2-8): return `""` for falsy
input, otherwise collapse whitespace runs to single spaces and remove
every character that is neither alphanumeric nor allow-listed. -/
def clean_text (s : String) : String :=
  if s = "" then "" else String.mk (cleanList s.data)

/-! ## `detect_document_type` (`src/utils/text_preprocessing.py`, lines 10-26) -/

/-- `sum(1 for keyword in keywords if keyword in content)`:
the number of keywords of the category occurring in the content. -/
def keywordHits (content : String) (kws : List String) : Nat :=
  (kws.filter (fun k => strContains k.data content.data)).length

/-- The fixed keyword table of `detect_document_type`, in declaration
order (Python dicts preserve insertion order). -/
def patterns : List (String × List String) :=
  [("claim_report", ["claim", "incident", "accident", "damage", "loss"]),
   ("policy_document", ["policy", "terms", "conditions", "coverage", "insurance"]),
   ("medical_report", ["diagnosis", "treatment", "medical", "physician", "patient"]),
   ("invoice", ["invoice", "bill", "payment", "amount", "due"]),
   ("correspondence", ["letter", "email", "correspondence", "regarding", "dear"])]

/-- The `matches` dictionary: each category paired with its hit count on
the lower-cased content. -/
def categoryMatches (content : String) : List (String × Nat) :=
  patterns.map (fun p => (p.1, keywordHits (pyLower content) p.2))

/-- `max(matches.values())` (with `0` for the impossible empty case). -/
def maxSnd (l : List (String × Nat)) : Nat := l.foldl (fun m p => Nat.max m p.2) 0

/-- Python's `max(items, key=lambda x: x[1])`: fold keeping the current
element unless the next is strictly greater, so the first maximal
element wins ties. -/
def pyMaxSnd (x : String × Nat) (xs : List (String × Nat)) : String × Nat :=
  xs.foldl (fun best y => if best.2 < y.2 then y else best) x

/-- `detect_document_type` (text preprocessing, lines 10-26):
`"other" if max_matches == 0 else max(matches.items(), key=lambda x: x[1])[0]`
(the unreachable empty-table case also yields `"other"`). -/
def detect_document_type (content : String) : String :=
  if maxSnd (categoryMatches content) = 0 then "other"
  else
    match categoryMatches content with
    | [] => "other"
    | x :: xs => (pyMaxSnd x xs).1

/-- Modelled from the spec section 4.2 for comparison: the category with
the highest non-zero total count, ties broken by first-declared
category; `other` when all counts are zero. -/
def specSelect (ms : List (String × Nat)) : String :=
  if maxSnd ms = 0 then "other"
  else
    match ms.find? (fun p => p.2 == maxSnd ms) with
    | some p => p.1
    | none => "other"

/-! ## A small regular-expression engine

`document_processor.py` matches text against seven alternated header
regexes.  The engine below implements Python `re` backtracking
semantics for the constructs those patterns use: character classes,
concatenation, ordered alternation, greedy star over consuming bodies,
and positional assertions (`$`).  `reSuffixes` enumerates, in Python's
backtracking preference order, the suffixes remaining after each
possible match of `r` against a prefix of `s`; its head is the match
Python commits to.  Star bodies of the source patterns always consume
at least one character, which the explicit length guard enforces, so
`fuel = s.length + 1` never cuts off a real iteration. -/

inductive Re where
  | eps : Re
  | cls : (Char → Bool) → Re
  | seq : Re → Re → Re
  | alt : Re → Re → Re
  | star : Re → Re
  | test : (List Char → Bool) → Re

def reSuffixes : Nat → Re → List Char → List (List Char)
  | 0, _, _ => []
  | _ + 1, .eps, s => [s]
  | _ + 1, .test t, s => if t s then [s] else []
  | _ + 1, .cls p, s =>
    match s with
    | [] => []
    | c :: rest => if p c then [rest] else []
  | f + 1, .seq r1 r2, s => (reSuffixes f r1 s).flatMap (fun s2 => reSuffixes f r2 s2)
  | f + 1, .alt r1 r2, s => reSuffixes f r1 s ++ reSuffixes f r2 s
  | f + 1, .star r1, s =>
    ((reSuffixes f r1 s).filter (fun s2 => decide (s2.length < s.length))).flatMap
      (fun s2 => reSuffixes f (.star r1) s2) ++ [s]

/-- Fuel for `reSuffixes`.  Each nested call consumes one unit; a chain
of calls alternates descents through the pattern structure (depth below
100 for every header pattern) with star unfoldings, of which there are
at most `s.length` because each one must consume a character.  The
bound is therefore never reached on the header patterns. -/
def reFuel (s : List Char) : Nat := 100 * (s.length + 1)

/-- `re.match(r, s)` succeeds (a match anchored at the start exists). -/
def reMatchB (r : Re) (s : List Char) : Bool :=
  !(reSuffixes (reFuel s) r s).isEmpty

/-- The text consumed by the match Python commits to (`match.group(0)`),
or `none` when `re.match` fails. -/
def reMatchText (r : Re) (s : List Char) : Option (List Char) :=
  match (reSuffixes (reFuel s) r s).head? with
  | some rem => some (s.take (s.length - rem.length))
  | none => none

def rChar (c : Char) : Re := Re.cls (fun x => x == c)

def rLit (s : String) : Re := s.data.foldr (fun c r => Re.seq (rChar c) r) Re.eps

def rAlts : List Re → Re
  | [] => Re.cls (fun _ => false)
  | [r] => r
  | r :: rest => Re.alt r (rAlts rest)

def rOpt (r : Re) : Re := Re.alt r Re.eps

def rPlus (r : Re) : Re := Re.seq r (Re.star r)

def wsStar : Re := Re.star (Re.cls pyIsSpace)

def wsPlus : Re := rPlus (Re.cls pyIsSpace)

def isDigitCh (c : Char) : Bool := '0' ≤ c && c ≤ '9'

def isUpperCh (c : Char) : Bool := 'A' ≤ c && c ≤ 'Z'

def upWSCh (c : Char) : Bool := isUpperCh c || pyIsSpace c

def upDigitCh (c : Char) : Bool := isUpperCh c || isDigitCh c

/-- `\d+` -/
def rDigits : Re := rPlus (Re.cls isDigitCh)

/-- `(?:\.\d+)*` -/
def rDotDigits : Re := Re.star (Re.seq (rChar '.') rDigits)

/-- `$` with `re.MULTILINE`: end of string or before any newline. -/
def dollarML : Re := Re.test (fun s => s.isEmpty || s.headD ' ' == '\n')

/-- `$` without `re.MULTILINE`: end of string or before a final newline. -/
def dollarNoML : Re := Re.test (fun s => s.isEmpty || s == ['\n'])

def colonOpt : Re := rOpt (rChar ':')

/-- Pattern 1 (`document_processor.py` line 31):
`^\s*(?:Section|SECTION)\s+\d+(?:\.\d+)*`. -/
def reP1 : Re :=
  Re.seq wsStar (Re.seq (Re.alt (rLit "Section") (rLit "SECTION"))
    (Re.seq wsPlus (Re.seq rDigits rDotDigits)))

/-- Pattern 2 (line 32): `^\s*\d+(?:\.\d+)*\s+[A-Z]`. -/
def reP2 : Re :=
  Re.seq wsStar (Re.seq rDigits (Re.seq rDotDigits (Re.seq wsPlus (Re.cls isUpperCh))))

/-- `(?:\s*\(.*\))?` of pattern 3 (`.` does not match a newline). -/
def parenGroupOpt : Re :=
  rOpt (Re.seq wsStar (Re.seq (rChar '(')
    (Re.seq (Re.star (Re.cls (fun c => c != '\n'))) (rChar ')'))))

/-- Pattern 3 (line 34): `^\s*[A-Z][A-Z\s]{2,}(?:\s*\(.*\))?:?$`. -/
def reP3 (dol : Re) : Re :=
  Re.seq wsStar (Re.seq (Re.cls isUpperCh) (Re.seq (Re.cls upWSCh) (Re.seq (Re.cls upWSCh)
    (Re.seq (Re.star (Re.cls upWSCh)) (Re.seq parenGroupOpt (Re.seq colonOpt dol))))))

/-- Pattern 4 (line 36): `^\s*(?:COVERAGE|EXCLUSIONS?|CONDITIONS?|DEFINITIONS?)\s*:?$`. -/
def reP4 (dol : Re) : Re :=
  Re.seq wsStar (Re.seq (rAlts [rLit "COVERAGE",
      Re.seq (rLit "EXCLUSION") (rOpt (rChar 'S')),
      Re.seq (rLit "CONDITION") (rOpt (rChar 'S')),
      Re.seq (rLit "DEFINITION") (rOpt (rChar 'S'))])
    (Re.seq wsStar (Re.seq colonOpt dol)))

/-- Pattern 5 (line 38): `^\s*(?:Article|ARTICLE|Chapter|CHAPTER)\s+\d+(?:\.\d+)*`. -/
def reP5 : Re :=
  Re.seq wsStar (Re.seq (rAlts [rLit "Article", rLit "ARTICLE", rLit "Chapter", rLit "CHAPTER"])
    (Re.seq wsPlus (Re.seq rDigits rDotDigits)))

/-- Pattern 6 (line 40):
`^\s*(?:PURPOSE|SCOPE|INTRODUCTION|BACKGROUND|SUMMARY|CONCLUSION)s*:?$`. -/
def reP6 (dol : Re) : Re :=
  Re.seq wsStar (Re.seq (rAlts [rLit "PURPOSE", rLit "SCOPE", rLit "INTRODUCTION",
      rLit "BACKGROUND", rLit "SUMMARY", rLit "CONCLUSION"])
    (Re.seq (Re.star (rChar 's')) (Re.seq colonOpt dol)))

/-- Pattern 7 (line 42): `^\s*(?:Appendix|APPENDIX|Exhibit|EXHIBIT)\s+[A-Z\d]+`. -/
def reP7 : Re :=
  Re.seq wsStar (Re.seq (rAlts [rLit "Appendix", rLit "APPENDIX", rLit "Exhibit", rLit "EXHIBIT"])
    (Re.seq wsPlus (rPlus (Re.cls upDigitCh))))

/-- `self.header_pattern = "|".join(self.section_patterns)`: the ordered
alternation of the seven header patterns.  Each alternative begins with
`^`, handled by attempting matches only at line starts. -/
def headerRe (dol : Re) : Re :=
  rAlts [reP1, reP2, reP3 dol, reP4 dol, reP5, reP6 dol, reP7]

/-! ## `detect_structure_type` (lines 46-51): `re.findall` scan -/

/-- Whether the character immediately preceding the suffix `rem` inside
`s` is a newline (the continuation point after a match sits at a line
start). -/
def nlBefore (s rem : List Char) : Bool :=
  (s.take (s.length - rem.length)).getLast? == some '\n'

/-- `len(re.findall(header_pattern, text, re.MULTILINE))`: scan left to
right; every alternative is anchored with `^`, so matches are attempted
only at line starts; after a non-empty match the scan resumes at its
end, after an empty match (impossible for these patterns, kept for
fidelity) it records the match and advances one character. -/
def scanHeadersF : Nat → List Char → Bool → Nat
  | 0, _, _ => 0
  | f + 1, s, atLS =>
    if atLS then
      match (reSuffixes (reFuel s) (headerRe dollarML) s).head? with
      | some rem =>
        if rem.length < s.length then
          1 + scanHeadersF f rem (nlBefore s rem)
        else
          match s with
          | [] => 1
          | c :: t => 1 + scanHeadersF f t (c == '\n')
      | none =>
        match s with
        | [] => 0
        | c :: t => scanHeadersF f t (c == '\n')
    else
      match s with
      | [] => 0
      | c :: t => scanHeadersF f t (c == '\n')

/-- The scan shortens the remaining text on every step, so
`s.length + 1` fuel always suffices. -/
def scanHeaders (s : List Char) (atLS : Bool) : Nat :=
  scanHeadersF (s.length + 1) s atLS

/-- `detect_structure_type` (document processor, lines 46-51). -/
def detect_structure_type (text : String) : String :=
  if 5 < scanHeaders text.data true then "structured" else "standard"

/-! ## `split_by_sections` (lines 74-90) -/

/-- `re.match(self.header_pattern, line.strip())` (no MULTILINE flag). -/
def isHeaderLineNoML (line : List Char) : Bool :=
  reMatchB (headerRe dollarNoML) (pyStrip line)

/-- The line-accumulating loop of `split_by_sections`: `cur` is
`current_section`; a header line flushes the accumulated section and
starts a new one; the trailing section is flushed at the end. -/
def sbAux : List (List Char) → List (List Char) → List (List (List Char))
  | [], cur => if cur.isEmpty then [] else [cur]
  | line :: rest, cur =>
    if isHeaderLineNoML line then
      if cur.isEmpty then sbAux rest [line]
      else cur :: sbAux rest [line]
    else sbAux rest (cur ++ [line])

/-- `split_by_sections` on character lists: split into lines at `'\n'`,
group them at header lines, and rejoin each group with `'\n'`. -/
def split_by_sections_core (l : List Char) : List (List Char) :=
  (sbAux (splitOnPred (fun c => c == '\n') l) []).map (List.intercalate ['\n'])

/-- `split_by_sections` (document processor, lines 74-90). -/
def split_by_sections (text : String) : List String :=
  (split_by_sections_core text.data).map String.mk

/-! ## `create_text_splitter` (lines 53-72)

The `RecursiveCharacterTextSplitter` itself is an external langchain
collaborator; what the source controls is the configuration passed to
its constructor, captured here as a record.  Unpassed arguments are the
langchain defaults (`add_start_index=False`, `strip_whitespace=True`). -/

structure TextSplitterConfig where
  separators : List String
  chunk_size : Nat
  chunk_overlap : Nat
  keep_separator : Bool
  add_start_index : Bool
  strip_whitespace : Bool
deriving DecidableEq

/-- `create_text_splitter` (document processor, lines 53-72); fields in
order: separators, chunk_size, chunk_overlap, keep_separator,
add_start_index, strip_whitespace. -/
def create_text_splitter (structure_type : String) : TextSplitterConfig :=
  if structure_type = "structured" then
    ⟨["\n\n", "\n", " "], 1000, 200, true, true, true⟩
  else
    ⟨["\n\n", "\n", ".", " "], 500, 50, false, false, true⟩

/-! ## `process_single_document` (lines 92-156) and friends

The PDF loader (`PyMuPDFLoader`) is an external collaborator modelled
as an oracle `fs` mapping a path to either "the file does not exist",
"loading raised", or the list of extracted page texts.  The langchain
text splitter is an oracle `splitText` from a configuration and a text
to the produced splits.  `pd.Timestamp.now()` is dropped from the chunk
metadata (no claim concerns it).  Log messages become an explicit
second component. -/

structure Chunk where
  page_content : String
  file_name : String
  doc_type : String
  structure_type : String
  word_count : Nat
  char_count : Nat
  section_header : Option (Option String)
deriving DecidableEq

/-- Line 132: `"section_header": re.match(self.header_pattern,
split.strip(), re.MULTILINE)`.  The code stores the raw `re.Match`
object (or `None`); the model represents a match object by the text it
matched (`group(0)`). -/
def section_header_match (sp : String) : Option String :=
  match reMatchText (headerRe dollarML) (pyStrip sp.data) with
  | some m => some (String.mk m)
  | none => none

def mkStructuredChunk (fname dtype sp : String) : Chunk :=
  ⟨sp, fname, dtype, "structured", (pyWords sp.data).length, sp.length,
   some (section_header_match sp)⟩

def mkStandardChunk (fname dtype sp : String) : Chunk :=
  ⟨sp, fname, dtype, "standard", (pyWords sp.data).length, sp.length, none⟩

/-- The per-page body of the loop in `process_single_document`
(lines 114-151). -/
def process_page (splitText : TextSplitterConfig → String → List String)
    (fname dtype : String) (page : String) : List Chunk :=
  let cleaned := clean_text page
  if cleaned = "" then []
  else
    let stype := detect_structure_type cleaned
    let splitter := create_text_splitter stype
    if stype = "structured" then
      (split_by_sections cleaned).flatMap
        (fun sec => (splitText splitter sec).map (mkStructuredChunk fname dtype))
    else
      (splitText splitter cleaned).map (mkStandardChunk fname dtype)

inductive LoadResult where
  | notFound : LoadResult
  | loadError : String → LoadResult
  | pages : List String → LoadResult

/-- `process_single_document` (lines 92-156): missing file and loader
errors are recovered locally (empty chunk list plus a log line naming
the source); otherwise every page is cleaned, structure-typed and
chunked. -/
def process_single_document (splitText : TextSplitterConfig → String → List String)
    (fs : String → LoadResult) (file_path : String) : List Chunk × List String :=
  match fs file_path with
  | .notFound => ([], ["File not found: " ++ file_path])
  | .loadError e => ([], ["Error processing " ++ file_path ++ ": " ++ e])
  | .pages [] => ([], ["No content extracted from: " ++ file_path])
  | .pages (p0 :: rest) =>
    ((p0 :: rest).flatMap (process_page splitText (pyBasename file_path)
      (detect_document_type p0)), [])

def dedupFirstF : Nat → List String → List String
  | 0, _ => []
  | _ + 1, [] => []
  | f + 1, a :: l => a :: dedupFirstF f (l.filter (fun b => b != a))

/-- First-occurrence deduplication, modelling `list(set(titles))`.
CPython's set iteration order is unspecified; the theorems below never
depend on the order chosen here.  Filtering never lengthens the list,
so `l.length` fuel suffices. -/
def dedupFirst (l : List String) : List String := dedupFirstF l.length l

/-- `content.split('\n')[0]`. -/
def firstLine (l : List Char) : List Char := l.takeWhile (fun c => c != '\n')

/-- `get_section_titles` (lines 158-165). -/
def get_section_titles (docs : List Chunk) : List String :=
  dedupFirst (docs.filterMap (fun d =>
    let content := pyStrip d.page_content.data
    if reMatchB (headerRe dollarML) content then some (String.mk (firstLine content))
    else none))

structure PDMetadata where
  file_name : String
  processed_at : String
  section_count : Nat
deriving DecidableEq

/-- `ProcessedDocument` (document processor lines 19-24 and retriever
lines 11-16). -/
structure ProcessedDocument where
  content : String
  doc_type : String
  metadata : PDMetadata
  sections : List String
deriving DecidableEq

def documentTypeTerms : String := "terms_and_conditions"

def documentTypeClaim : String := "claim_report"

/-- The per-file assembly step of `process_documents` (lines 170-183 and
186-199): join the chunk contents with newlines, collect the section
titles, and record them with the file name and timestamp. -/
def assembleProcessed (docs : List Chunk) (dtype file_path now : String) : ProcessedDocument :=
  ⟨String.mk (List.intercalate ['\n'] (docs.map (fun d => d.page_content.data))), dtype,
   ⟨pyBasename file_path, now, (get_section_titles docs).length⟩,
   get_section_titles docs⟩

/-- `process_documents` (lines 167-201): both files are processed
independently; failure of one never aborts the other. -/
def process_documents (splitText : TextSplitterConfig → String → List String)
    (fs : String → LoadResult) (now terms_file claim_file : String) :
    ProcessedDocument × ProcessedDocument :=
  (assembleProcessed (process_single_document splitText fs terms_file).1
     documentTypeTerms terms_file now,
   assembleProcessed (process_single_document splitText fs claim_file).1
     documentTypeClaim claim_file now)

/-! ## `RetrievalSystem` (`src/retriever.py`)

BM25 scoring, the embedding model and Chroma are external; the model
carries their query-time behaviour as ranking oracles
(`query ↦ full ranked list of chunk texts`, of which the retriever
serves its configured top `k`) and lets construction failures of either
library be injected through `Option String` parameters, since the only
facts the source controls are the document lists, `k` values, weights,
and the propagation of build failures.  Fusion follows langchain's
`EnsembleRetriever` weighted reciprocal-rank fusion (constant 60,
ranks starting at 1, results deduplicated by page content and sorted by
descending fused score). -/

structure RDoc where
  page_content : String
  file_name : String
  processed_at : String
  section_count : Nat
  chunk_index : Nat
  doc_type : String
  total_chunks : Nat
deriving DecidableEq

/-- `_convert_to_documents` (retriever lines 22-43): the sections list
when non-empty, otherwise the whole content as a single document; each
chunk gets the original metadata plus its index and the total count. -/
def convert_to_documents (pd : ProcessedDocument) : List RDoc :=
  let chunks := if pd.sections.isEmpty then [pd.content] else pd.sections
  chunks.enum.map (fun ic =>
    ⟨ic.2, pd.metadata.file_name, pd.metadata.processed_at, pd.metadata.section_count,
     ic.1, pd.doc_type, chunks.length⟩)

inductive RetrieverError where
  | emptyInput : RetrieverError
  | buildFailure : String → RetrieverError
deriving DecidableEq

structure EnsembleRetriever where
  bm25docs : List RDoc
  bm25k : Nat
  bm25rank : String → List String
  vecdocs : List RDoc
  veck : Nat
  vecrank : String → List String
  weights : List ℚ

/-- `setup_retrievers` (retriever lines 60-97): convert, guard against
an empty document list (`raise ValueError`), build the BM25 retriever
with `k=3`, the Chroma retriever with `k=2`, and combine them with
weights `[0.5, 0.5]`; any build failure propagates (the `except` block
logs and re-raises). -/
def setup_retrievers (bm25rank vecrank : String → List String)
    (bm25Fail chromaFail : Option String) (pd : ProcessedDocument) :
    Except RetrieverError EnsembleRetriever :=
  let documents := convert_to_documents pd
  if documents.isEmpty then .error .emptyInput
  else
    match bm25Fail with
    | some e => .error (.buildFailure e)
    | none =>
      match chromaFail with
      | some e => .error (.buildFailure e)
      | none => .ok ⟨documents, 3, bm25rank, documents, 2, vecrank, [1/2, 1/2]⟩

/-- A sub-ranker's reciprocal-rank contribution: `1 / (rank + 60)` with
ranks starting at 1, `0` if the chunk was not retrieved. -/
def rrfScore (l : List String) (d : String) : ℚ :=
  match l.findIdx? (fun x => x == d) with
  | some i => 1 / (61 + (i : ℚ))
  | none => 0

/-- A chunk's fused score: the sum of its two weighted contributions. -/
def fusedScore (w1 w2 : ℚ) (l1 l2 : List String) (d : String) : ℚ :=
  w1 * rrfScore l1 d + w2 * rrfScore l2 d

/-- Stable insert for descending order by score: `x` goes after every
earlier element whose score is at least as large. -/
def insertByScore (x : String × ℚ) : List (String × ℚ) → List (String × ℚ)
  | [] => [x]
  | y :: t => if x.2 ≤ y.2 then y :: insertByScore x t else x :: y :: t

/-- Stable sort by descending score (Python's `sorted(..., reverse=True)`
is stable; any stable sort gives the same list). -/
def sortByScoreDesc : List (String × ℚ) → List (String × ℚ)
  | [] => []
  | x :: t => insertByScore x (sortByScoreDesc t)

/-- langchain `EnsembleRetriever.rank_fusion`: deduplicate the union of
the two result lists, score each chunk by the weighted sum of its
reciprocal-rank contributions, and sort by descending fused score
(stable). -/
def ensembleFuse (w1 w2 : ℚ) (l1 l2 : List String) : List (String × ℚ) :=
  sortByScoreDesc ((dedupFirst (l1 ++ l2)).map (fun d => (d, fusedScore w1 w2 l1 l2 d)))

/-- `retrieve_relevant_context` (retriever lines 99-119): query the
ensemble; each sub-retriever returns its configured top `k` and the
results are fused.  (The `k=5` keyword argument the source passes to
`get_relevant_documents` is ignored by langchain's ensemble.) -/
def retrieve_relevant_context (r : EnsembleRetriever) (query : String) : List (String × ℚ) :=
  ensembleFuse (r.weights.getD 0 0) (r.weights.getD 1 0)
    ((r.bm25rank query).take r.bm25k) ((r.vecrank query).take r.veck)

/-! ### Lemmas about `splitOnPred` / `pyWords` -/

theorem splitOnPred_cons (p : Char → Bool) (c : Char) (rest : List Char) :
    splitOnPred p (c :: rest) =
      if p c then [] :: splitOnPred p rest
      else
        match splitOnPred p rest with
        | [] => [[c]]
        | h :: t => (c :: h) :: t := rfl

theorem splitOnPred_ne_nil (p : Char → Bool) (l : List Char) :
    splitOnPred p l ≠ [] := by
  induction l with
  | nil => simp [splitOnPred]
  | cons c rest ih =>
    rw [splitOnPred_cons]
    split
    · simp
    · cases h : splitOnPred p rest with
      | nil => simp
      | cons a t => simp

theorem mem_splitOnPred (p : Char → Bool) (l : List Char) :
    ∀ w ∈ splitOnPred p l, ∀ c ∈ w, c ∈ l ∧ p c = false := by
  induction l with
  | nil =>
    intro w hw c hc
    simp [splitOnPred] at hw
    subst hw
    simp at hc
  | cons a rest ih =>
    intro w hw c hc
    rw [splitOnPred_cons] at hw
    by_cases hpa : p a
    · rw [if_pos hpa] at hw
      rcases List.mem_cons.1 hw with hw | hw
      · subst hw; simp at hc
      · obtain ⟨h1, h2⟩ := ih w hw c hc
        exact ⟨List.mem_cons_of_mem _ h1, h2⟩
    · rw [if_neg hpa] at hw
      cases hr : splitOnPred p rest with
      | nil => exact absurd hr (splitOnPred_ne_nil p rest)
      | cons h t =>
        rw [hr] at hw
        rcases List.mem_cons.1 hw with hw | hw
        · subst hw
          rcases List.mem_cons.1 hc with hc | hc
          · subst hc
            exact ⟨List.mem_cons_self _ _, by simpa using hpa⟩
          · obtain ⟨h1, h2⟩ := ih h (by rw [hr]; exact List.mem_cons_self _ _) c hc
            exact ⟨List.mem_cons_of_mem _ h1, h2⟩
        · obtain ⟨h1, h2⟩ := ih w (by rw [hr]; exact List.mem_cons_of_mem _ hw) c hc
          exact ⟨List.mem_cons_of_mem _ h1, h2⟩

theorem splitOnPred_append_of_clean (p : Char → Bool) (w l : List Char)
    (hw : ∀ c ∈ w, p c = false) :
    splitOnPred p (w ++ l) =
      (w ++ (splitOnPred p l).headD []) :: (splitOnPred p l).tail := by
  induction w with
  | nil =>
    cases h : splitOnPred p l with
    | nil => exact absurd h (splitOnPred_ne_nil p l)
    | cons a t => simp [h]
  | cons c w ih =>
    have hc : p c = false := hw c (List.mem_cons_self _ _)
    have hw' : ∀ c ∈ w, p c = false := fun c hmem => hw c (List.mem_cons_of_mem _ hmem)
    have heq : (c :: w) ++ l = c :: (w ++ l) := rfl
    rw [heq, splitOnPred_cons, if_neg (by simp [hc]), ih hw']
    simp

theorem intercalate_cons_cons (s a b : List Char) (t : List (List Char)) :
    List.intercalate s (a :: b :: t) = a ++ s ++ List.intercalate s (b :: t) := by
  simp [List.intercalate, List.intersperse]

theorem intercalate_singleton (s g : List Char) :
    List.intercalate s [g] = g := by
  simp [List.intercalate, List.intersperse]

/-- `str.split()` is a left inverse of joining nonempty whitespace-free
words with single spaces. -/
theorem pyWords_intercalate (ws : List (List Char))
    (h : ∀ w ∈ ws, w ≠ [] ∧ ∀ c ∈ w, pyIsSpace c = false) :
    pyWords (List.intercalate [' '] ws) = ws := by
  induction ws with
  | nil => simp [pyWords, List.intercalate, splitOnPred]
  | cons w ws ih =>
    obtain ⟨hwne, hwcl⟩ := h w (List.mem_cons_self _ _)
    have hws : ∀ v ∈ ws, v ≠ [] ∧ ∀ c ∈ v, pyIsSpace c = false :=
      fun v hv => h v (List.mem_cons_of_mem _ hv)
    have hwkeep : (!w.isEmpty) = true := by
      cases w with
      | nil => exact absurd rfl hwne
      | cons _ _ => rfl
    cases ws with
    | nil =>
      have h1 : List.intercalate [' '] [w] = w ++ [] := by
        rw [intercalate_singleton, List.append_nil]
      rw [h1, pyWords, splitOnPred_append_of_clean pyIsSpace w [] hwcl]
      have h2 : splitOnPred pyIsSpace ([] : List Char) = [[]] := rfl
      rw [h2]
      simp [List.filter_cons, hwkeep]
    | cons w2 t =>
      rw [intercalate_cons_cons, List.append_assoc, pyWords,
        splitOnPred_append_of_clean pyIsSpace w _ hwcl]
      have hsplit : splitOnPred pyIsSpace ([' '] ++ List.intercalate [' '] (w2 :: t)) =
          [] :: splitOnPred pyIsSpace (List.intercalate [' '] (w2 :: t)) := by
        have h3 : ([' '] ++ List.intercalate [' '] (w2 :: t)) =
            ' ' :: List.intercalate [' '] (w2 :: t) := rfl
        rw [h3, splitOnPred_cons, if_pos (by decide)]
      rw [hsplit]
      have hih := ih hws
      rw [pyWords] at hih
      simp only [List.headD_cons, List.tail_cons, List.append_nil, List.filter_cons,
        hwkeep, if_true]
      rw [hih]

theorem mem_pyWords_props (l : List Char) :
    ∀ w ∈ pyWords l, w ≠ [] ∧ ∀ c ∈ w, pyIsSpace c = false := by
  intro w hw
  have hw' : w ∈ List.filter (fun w => !w.isEmpty) (splitOnPred pyIsSpace l) := hw
  rw [List.mem_filter] at hw'
  refine ⟨by simpa using hw'.2, fun c hc => ?_⟩
  exact (mem_splitOnPred pyIsSpace l w hw'.1 c hc).2

theorem mem_intercalate_pyWords (l : List Char) (c : Char)
    (hc : c ∈ List.intercalate [' '] (pyWords l)) :
    c = ' ' ∨ (c ∈ l ∧ pyIsSpace c = false) := by
  have key : ∀ (gs : List (List Char)),
      (∀ g ∈ gs, ∀ c' ∈ g, c' ∈ l ∧ pyIsSpace c' = false) →
      ∀ c' ∈ List.intercalate [' '] gs,
        c' = ' ' ∨ (c' ∈ l ∧ pyIsSpace c' = false) := by
    intro gs
    induction gs with
    | nil => intro _ c' hc'; simp [List.intercalate] at hc'
    | cons g gs ihg =>
      intro hgs c' hc'
      cases gs with
      | nil =>
        rw [intercalate_singleton] at hc'
        exact Or.inr (hgs g (List.mem_cons_self _ _) c' hc')
      | cons g2 t2 =>
        rw [intercalate_cons_cons] at hc'
        rcases List.mem_append.1 hc' with hc' | hc'
        · rcases List.mem_append.1 hc' with hc' | hc'
          · exact Or.inr (hgs g (List.mem_cons_self _ _) c' hc')
          · exact Or.inl (List.mem_singleton.1 hc')
        · exact ihg (fun g hg => hgs g (List.mem_cons_of_mem _ hg)) c' hc'
  have hmem : ∀ g ∈ pyWords l, ∀ c' ∈ g, c' ∈ l ∧ pyIsSpace c' = false := by
    intro g hg c' hc'
    have hg' : g ∈ List.filter (fun w => !w.isEmpty) (splitOnPred pyIsSpace l) := hg
    exact mem_splitOnPred pyIsSpace l g (List.mem_filter.1 hg').1 c' hc'
  exact key (pyWords l) hmem c hc

/-- If every character of the input is allowed, the filter inside
`cleanList` removes nothing, so `cleanList` is just whitespace collapse. -/
theorem cleanList_eq_collapse (l : List Char)
    (h : ∀ c ∈ l, allowedChar c = true ∨ pyIsSpace c = true) :
    cleanList l = List.intercalate [' '] (pyWords l) := by
  rw [cleanList, List.filter_eq_self]
  intro c hc
  rcases mem_intercalate_pyWords l c hc with hsp | ⟨hmem, hns⟩
  · subst hsp; decide
  · rcases h c hmem with hall | hsp
    · exact hall
    · rw [hns] at hsp; cases hsp

theorem cleanList_idem_of_allowed (l : List Char)
    (h : ∀ c ∈ l, allowedChar c = true ∨ pyIsSpace c = true) :
    cleanList (cleanList l) = cleanList l := by
  rw [cleanList_eq_collapse l h]
  have hwords : pyWords (List.intercalate [' '] (pyWords l)) = pyWords l :=
    pyWords_intercalate (pyWords l) (mem_pyWords_props l)
  have hcoll : ∀ c ∈ List.intercalate [' '] (pyWords l),
      allowedChar c = true ∨ pyIsSpace c = true := by
    intro c hc
    rcases mem_intercalate_pyWords l c hc with hsp | ⟨hmem, _⟩
    · subst hsp; left; decide
    · rcases h c hmem with hall | hsp
      · exact Or.inl hall
      · exact Or.inr hsp
  rw [cleanList_eq_collapse _ hcoll, hwords]

/-! ### Lemmas about `maxSnd` / `pyMaxSnd` (Python `max` semantics) -/

theorem foldl_max_eq (l : List (String × Nat)) (a : Nat) :
    l.foldl (fun m p => Nat.max m p.2) a = Nat.max a (maxSnd l) := by
  induction l generalizing a with
  | nil => simp [maxSnd]
  | cons q l ih =>
    rw [List.foldl_cons, ih]
    have hq : maxSnd (q :: l) = Nat.max q.2 (maxSnd l) := by
      rw [maxSnd, List.foldl_cons, ih]
      exact congrArg (fun z => Nat.max z (maxSnd l)) (Nat.zero_max q.2)
    rw [hq]
    exact Nat.max_assoc a q.2 (maxSnd l)

theorem maxSnd_cons (p : String × Nat) (l : List (String × Nat)) :
    maxSnd (p :: l) = Nat.max p.2 (maxSnd l) := by
  rw [maxSnd, List.foldl_cons, foldl_max_eq]
  exact congrArg (fun z => Nat.max z (maxSnd l)) (Nat.zero_max p.2)

theorem pyMaxSnd_cons (x y : String × Nat) (xs : List (String × Nat)) :
    pyMaxSnd x (y :: xs) = pyMaxSnd (if x.2 < y.2 then y else x) xs := rfl

/-- Python's first-max fold returns the first element whose count equals
the maximum, i.e. it agrees with `find?` on the maximal count. -/
theorem find?_max_eq_pyMaxSnd (xs : List (String × Nat)) :
    ∀ x, (x :: xs).find? (fun p => p.2 == maxSnd (x :: xs)) = some (pyMaxSnd x xs) := by
  induction xs with
  | nil =>
    intro x
    have hx : maxSnd [x] = x.2 := by rw [maxSnd_cons]; simp [maxSnd]
    rw [List.find?_cons_of_pos _ (by simp [hx])]
    rfl
  | cons y xs ih =>
    intro x
    by_cases hxy : x.2 < y.2
    · have hle : x.2 ≤ maxSnd (y :: xs) := by
        rw [maxSnd_cons]
        exact le_trans (Nat.le_of_lt hxy) (Nat.le_max_left _ _)
      have hM : maxSnd (x :: y :: xs) = maxSnd (y :: xs) := by
        rw [maxSnd_cons x (y :: xs)]
        exact Nat.max_eq_right hle
      have hxne : x.2 ≠ maxSnd (x :: y :: xs) := by
        rw [hM]
        exact Nat.ne_of_lt (lt_of_lt_of_le hxy (by rw [maxSnd_cons]; exact Nat.le_max_left _ _))
      rw [List.find?_cons_of_neg _ (by simp [hxne]), pyMaxSnd_cons, if_pos hxy]
      rw [show (fun (p : String × Nat) => p.2 == maxSnd (x :: y :: xs)) =
        (fun p => p.2 == maxSnd (y :: xs)) from by rw [hM]]
      exact ih y
    · have hy : y.2 ≤ x.2 := Nat.le_of_not_lt hxy
      have hM : maxSnd (x :: y :: xs) = maxSnd (x :: xs) := by
        rw [maxSnd_cons x (y :: xs), maxSnd_cons y xs, maxSnd_cons x xs]
        calc Nat.max x.2 (Nat.max y.2 (maxSnd xs))
            = Nat.max (Nat.max x.2 y.2) (maxSnd xs) := (Nat.max_assoc _ _ _).symm
          _ = Nat.max x.2 (maxSnd xs) :=
              congrArg (fun z => Nat.max z (maxSnd xs)) (Nat.max_eq_left hy)
      rw [pyMaxSnd_cons, if_neg hxy]
      by_cases hx : x.2 = maxSnd (x :: y :: xs)
      · have hx' : x.2 = maxSnd (x :: xs) := by rw [← hM]; exact hx
        have hfind := ih x
        rw [List.find?_cons_of_pos _ (by simp [hx'])] at hfind
        rw [List.find?_cons_of_pos _ (by simp [hx])]
        exact hfind
      · have hxle : x.2 ≤ maxSnd (x :: y :: xs) := by
          rw [maxSnd_cons]; exact Nat.le_max_left _ _
        have hyne : y.2 ≠ maxSnd (x :: y :: xs) := by
          intro hcontra
          exact hx (Nat.le_antisymm hxle (hcontra ▸ hy))
        rw [List.find?_cons_of_neg _ (by simp [hx]),
          List.find?_cons_of_neg _ (by simp [hyne])]
        have hx'' : x.2 ≠ maxSnd (x :: xs) := by rw [← hM]; exact hx
        have hfind := ih x
        rw [List.find?_cons_of_neg _ (by simp [hx''])] at hfind
        rw [show (fun (p : String × Nat) => p.2 == maxSnd (x :: y :: xs)) =
          (fun p => p.2 == maxSnd (x :: xs)) from by rw [hM]]
        exact hfind

/-- The classifier agrees with the spec-side selection rule. -/
theorem detect_eq_specSelect (content : String) :
    detect_document_type content = specSelect (categoryMatches content) := by
  rw [detect_document_type, specSelect]
  by_cases h : maxSnd (categoryMatches content) = 0
  · rw [if_pos h, if_pos h]
  · rw [if_neg h, if_neg h]
    cases hms : categoryMatches content with
    | nil =>
      rw [hms] at h
      exact absurd rfl h
    | cons x xs =>
      rw [← hms, hms, find?_max_eq_pyMaxSnd]

/-! ### Lemmas about newline splitting and `sbAux` -/

theorem intercalate_cons_of_ne (s a : List Char) (gs : List (List Char)) (hgs : gs ≠ []) :
    List.intercalate s (a :: gs) = a ++ s ++ List.intercalate s gs := by
  cases gs with
  | nil => exact absurd rfl hgs
  | cons b t => exact intercalate_cons_cons s a b t

/-- Joining `str.split('\n')` with newlines restores the string. -/
theorem intercalate_splitOnPred_nl (l : List Char) :
    List.intercalate ['\n'] (splitOnPred (fun c => c == '\n') l) = l := by
  induction l with
  | nil => simp [splitOnPred, intercalate_singleton]
  | cons c rest ih =>
    rw [splitOnPred_cons]
    by_cases hc : (c == '\n') = true
    · rw [if_pos hc,
        intercalate_cons_of_ne _ _ _ (splitOnPred_ne_nil _ _), ih]
      have : c = '\n' := by simpa using hc
      rw [this]
      rfl
    · rw [if_neg hc]
      cases hr : splitOnPred (fun c => c == '\n') rest with
      | nil => exact absurd hr (splitOnPred_ne_nil _ _)
      | cons h t =>
        rw [hr] at ih
        cases t with
        | nil =>
          rw [intercalate_singleton]
          rw [intercalate_singleton] at ih
          rw [ih]
        | cons h2 t2 =>
          rw [intercalate_cons_cons]
          rw [intercalate_cons_cons] at ih
          rw [List.cons_append, List.cons_append, ih]

theorem sbAux_join (lines : List (List Char)) (cur : List (List Char)) :
    (sbAux lines cur).flatten = cur ++ lines := by
  induction lines generalizing cur with
  | nil =>
    by_cases hc : cur.isEmpty
    · have : cur = [] := by simpa using hc
      simp [sbAux, hc, this]
    · simp [sbAux, hc]
  | cons line rest ih =>
    simp only [sbAux]
    by_cases hh : isHeaderLineNoML line
    · rw [if_pos hh]
      by_cases hc : cur.isEmpty
      · have hcur : cur = [] := by simpa using hc
        rw [if_pos hc, ih, hcur]
        rfl
      · rw [if_neg hc, List.flatten_cons, ih]
        rfl
    · rw [if_neg hh, ih, List.append_assoc]
      rfl

theorem sbAux_groups_ne_nil (lines : List (List Char)) (cur : List (List Char)) :
    ∀ g ∈ sbAux lines cur, g ≠ [] := by
  induction lines generalizing cur with
  | nil =>
    intro g hg
    by_cases hc : cur.isEmpty
    · simp [sbAux, hc] at hg
    · simp only [sbAux, hc, if_false] at hg
      have : g = cur := by simpa using hg
      subst this
      simpa using hc
  | cons line rest ih =>
    intro g hg
    simp only [sbAux] at hg
    by_cases hh : isHeaderLineNoML line
    · rw [if_pos hh] at hg
      by_cases hc : cur.isEmpty
      · rw [if_pos hc] at hg
        exact ih [line] g hg
      · rw [if_neg hc] at hg
        rcases List.mem_cons.1 hg with hg | hg
        · subst hg; simpa using hc
        · exact ih [line] g hg
    · rw [if_neg hh] at hg
      exact ih (cur ++ [line]) g hg

theorem intercalate_append_split (s : List Char) (a b : List (List Char))
    (ha : a ≠ []) (hb : b ≠ []) :
    List.intercalate s (a ++ b) =
      List.intercalate s a ++ s ++ List.intercalate s b := by
  induction a with
  | nil => exact absurd rfl ha
  | cons x a iha =>
    cases a with
    | nil =>
      cases b with
      | nil => exact absurd rfl hb
      | cons y t =>
        rw [List.singleton_append, intercalate_cons_cons, intercalate_singleton]
    | cons x2 a2 =>
      have h1 : (x :: x2 :: a2) ++ b = x :: ((x2 :: a2) ++ b) := rfl
      rw [h1, intercalate_cons_of_ne s x _ (by simp), iha (by simp) ,
        intercalate_cons_cons]
      simp [List.append_assoc]

/-- Joining section strings with newlines recovers the joined groups. -/
theorem intercalate_map_join (gs : List (List (List Char)))
    (h : ∀ g ∈ gs, g ≠ []) :
    List.intercalate ['\n'] (gs.map (List.intercalate ['\n'])) =
      List.intercalate ['\n'] gs.flatten := by
  induction gs with
  | nil => simp [List.intercalate]
  | cons g gs ih =>
    cases gs with
    | nil => simp [intercalate_singleton]
    | cons g2 t =>
      have hg2 : g2 ≠ [] := h g2 (List.mem_cons_of_mem _ (List.mem_cons_self _ _))
      have hb : (g2 :: t).flatten ≠ [] := by
        rw [List.flatten_cons]
        intro hcontra
        exact hg2 (List.append_eq_nil.1 hcontra).1
      have hflat : (g :: g2 :: t).flatten = g ++ (g2 :: t).flatten := rfl
      rw [List.map_cons, intercalate_cons_of_ne _ _ _ (by simp),
        ih (fun g hg => h g (List.mem_cons_of_mem _ hg)), hflat,
        intercalate_append_split ['\n'] g ((g2 :: t).flatten)
          (h g (List.mem_cons_self _ _)) hb]

/-! ### Lemmas about `dedupFirst`, the fusion sort and `setup_retrievers` -/

theorem mem_of_mem_dedupFirstF :
    ∀ (f : Nat) (l : List String) (x : String), x ∈ dedupFirstF f l → x ∈ l := by
  intro f
  induction f with
  | zero => intro l x hx; simp [dedupFirstF] at hx
  | succ f ih =>
    intro l x hx
    cases l with
    | nil => simp [dedupFirstF] at hx
    | cons a l =>
      simp only [dedupFirstF] at hx
      rcases List.mem_cons.1 hx with hx | hx
      · subst hx; exact List.mem_cons_self _ _
      · exact List.mem_cons_of_mem _ (List.mem_filter.1 (ih _ x hx)).1

theorem dedupFirstF_nodup :
    ∀ (f : Nat) (l : List String), l.length ≤ f → (dedupFirstF f l).Nodup := by
  intro f
  induction f with
  | zero => intro l _; simp [dedupFirstF]
  | succ f ih =>
    intro l hl
    cases l with
    | nil => simp [dedupFirstF]
    | cons a l =>
      simp only [dedupFirstF]
      refine List.nodup_cons.2 ⟨fun hmem => ?_, ?_⟩
      · have := List.mem_filter.1 (mem_of_mem_dedupFirstF _ _ _ hmem)
        simp at this
      · refine ih _ (le_trans (List.length_filter_le _ _) ?_)
        exact Nat.le_of_succ_le_succ hl

theorem dedupFirstF_length_le :
    ∀ (f : Nat) (l : List String), (dedupFirstF f l).length ≤ l.length := by
  intro f
  induction f with
  | zero => intro l; simp [dedupFirstF]
  | succ f ih =>
    intro l
    cases l with
    | nil => simp [dedupFirstF]
    | cons a l =>
      simp only [dedupFirstF, List.length_cons]
      exact Nat.succ_le_succ (le_trans (ih _) (List.length_filter_le _ _))

theorem mem_dedupFirstF_of_mem :
    ∀ (f : Nat) (l : List String) (x : String), l.length ≤ f → x ∈ l →
      x ∈ dedupFirstF f l := by
  intro f
  induction f with
  | zero =>
    intro l x hl hx
    cases l with
    | nil => simp at hx
    | cons a l => simp at hl
  | succ f ih =>
    intro l x hl hx
    cases l with
    | nil => simp at hx
    | cons a l =>
      simp only [dedupFirstF]
      rcases List.mem_cons.1 hx with hx | hx
      · subst hx; exact List.mem_cons_self _ _
      · by_cases hax : x = a
        · subst hax; exact List.mem_cons_self _ _
        · refine List.mem_cons_of_mem _ (ih _ x (le_trans (List.length_filter_le _ _)
            (Nat.le_of_succ_le_succ hl)) ?_)
          refine List.mem_filter.2 ⟨hx, ?_⟩
          simpa using hax

theorem dedupFirst_nodup (l : List String) : (dedupFirst l).Nodup :=
  dedupFirstF_nodup l.length l (le_refl _)

theorem dedupFirst_length_le (l : List String) : (dedupFirst l).length ≤ l.length :=
  dedupFirstF_length_le l.length l

theorem mem_dedupFirst (l : List String) (x : String) : x ∈ l → x ∈ dedupFirst l :=
  mem_dedupFirstF_of_mem l.length l x (le_refl _)

theorem insertByScore_perm (x : String × ℚ) (l : List (String × ℚ)) :
    (insertByScore x l).Perm (x :: l) := by
  induction l with
  | nil => exact List.Perm.refl _
  | cons y t ih =>
    simp only [insertByScore]
    split
    · exact (ih.cons y).trans (List.Perm.swap x y t)
    · exact List.Perm.refl _

theorem sortByScoreDesc_perm (l : List (String × ℚ)) :
    (sortByScoreDesc l).Perm l := by
  induction l with
  | nil => exact List.Perm.refl _
  | cons x t ih =>
    exact (insertByScore_perm x (sortByScoreDesc t)).trans (ih.cons x)

theorem mem_insertByScore (x z : String × ℚ) (l : List (String × ℚ)) :
    z ∈ insertByScore x l ↔ z = x ∨ z ∈ l := by
  rw [(insertByScore_perm x l).mem_iff]
  simp

theorem insertByScore_sorted (x : String × ℚ) (l : List (String × ℚ))
    (h : l.Pairwise (fun a b => b.2 ≤ a.2)) :
    (insertByScore x l).Pairwise (fun a b => b.2 ≤ a.2) := by
  induction l with
  | nil => simp [insertByScore]
  | cons y t ih =>
    simp only [insertByScore]
    rcases List.pairwise_cons.1 h with ⟨hy, ht⟩
    split
    · next hle =>
      refine List.pairwise_cons.2 ⟨?_, ih ht⟩
      intro z hz
      rcases (mem_insertByScore x z t).1 hz with hz | hz
      · subst hz; exact hle
      · exact hy z hz
    · next hle =>
      refine List.pairwise_cons.2 ⟨?_, h⟩
      intro z hz
      rcases List.mem_cons.1 hz with hz | hz
      · subst hz; exact le_of_lt (lt_of_not_le hle)
      · exact le_trans (hy z hz) (le_of_lt (lt_of_not_le hle))

theorem sortByScoreDesc_sorted (l : List (String × ℚ)) :
    (sortByScoreDesc l).Pairwise (fun a b => b.2 ≤ a.2) := by
  induction l with
  | nil => simp [sortByScoreDesc]
  | cons x t ih => exact insertByScore_sorted x (sortByScoreDesc t) ih

/-- The fused result list: bounded size, no duplicated chunk, every
retrieved chunk present with its fused score, descending order. -/
theorem ensembleFuse_spec (w1 w2 : ℚ) (l1 l2 : List String) :
    (ensembleFuse w1 w2 l1 l2).length ≤ l1.length + l2.length ∧
    ((ensembleFuse w1 w2 l1 l2).map Prod.fst).Nodup ∧
    (∀ d, d ∈ l1 ∨ d ∈ l2 →
      (d, fusedScore w1 w2 l1 l2 d) ∈ ensembleFuse w1 w2 l1 l2) ∧
    (ensembleFuse w1 w2 l1 l2).Pairwise (fun a b => b.2 ≤ a.2) := by
  have hperm := sortByScoreDesc_perm
    ((dedupFirst (l1 ++ l2)).map (fun d => (d, fusedScore w1 w2 l1 l2 d)))
  refine ⟨?_, ?_, ?_, sortByScoreDesc_sorted _⟩
  · rw [ensembleFuse, hperm.length_eq, List.length_map]
    calc (dedupFirst (l1 ++ l2)).length ≤ (l1 ++ l2).length := dedupFirst_length_le _
      _ = l1.length + l2.length := List.length_append _ _
  · rw [ensembleFuse]
    refine ((hperm.map Prod.fst).nodup_iff).2 ?_
    rw [List.map_map]
    have hid : (Prod.fst ∘ fun d => (d, fusedScore w1 w2 l1 l2 d)) = id := rfl
    rw [hid, List.map_id]
    exact dedupFirst_nodup _
  · intro d hd
    rw [ensembleFuse, hperm.mem_iff]
    refine List.mem_map.2 ⟨d, ?_, rfl⟩
    exact mem_dedupFirst _ _ (List.mem_append.2 hd)

theorem convert_to_documents_ne_nil (pd : ProcessedDocument) :
    (convert_to_documents pd).isEmpty = false := by
  rw [convert_to_documents]
  by_cases h : pd.sections.isEmpty
  · simp [h]
  · cases hs : pd.sections with
    | nil => rw [hs] at h; simp at h
    | cons a t => simp [hs]

/-- Inversion of a successful `setup_retrievers` call. -/
theorem setup_retrievers_ok (bm25rank vecrank : String → List String)
    (pd : ProcessedDocument) (r : EnsembleRetriever)
    (h : setup_retrievers bm25rank vecrank none none pd = Except.ok r) :
    r = ⟨convert_to_documents pd, 3, bm25rank,
         convert_to_documents pd, 2, vecrank, [1/2, 1/2]⟩ := by
  rw [setup_retrievers.eq_def] at h
  simp only [convert_to_documents_ne_nil pd, Bool.false_eq_true, if_false] at h
  exact (Except.ok.inj h).symm

/-! ## Claim theorems -/

/-- Claim C1, counterexample: the chunking pipeline produced the two
chunks "alpha" and "beta", but the indexes built by `setup_retrievers`
contain the single joined document "alpha\nbeta" (their contents have no
section titles, so `_convert_to_documents` falls back to the whole
content); the chunk "alpha" therefore does not appear in either index,
refuting "every chunk in the set appears in both indexes exactly
once". -/
theorem claim1_counterexample :
    ((setup_retrievers (fun _ => []) (fun _ => []) none none
        (assembleProcessed
          [⟨"alpha", "doc.pdf", "other", "standard", 1, 5, none⟩,
           ⟨"beta", "doc.pdf", "other", "standard", 1, 4, none⟩]
          documentTypeTerms "doc.pdf" "t0")).toOption.map
      (fun r => r.bm25docs.map (fun d => d.page_content))) = some ["alpha\nbeta"] ∧
    "alpha" ∉ (["alpha\nbeta"] : List String) := by
  refine ⟨by decide, by decide⟩

/-- Claim C1 (corrected): on success both the lexical and the vector
index are built over exactly the same non-empty document list produced
by `_convert_to_documents` (each entry of that list appears in both,
once per entry, since the two lists coincide), and construction is
all-or-nothing (a failing call returns an error and never also a
retriever).  That list is the ProcessedDocument's section-title list
(or the whole content as one document), not the chunk set produced by
the chunking pipeline. -/
theorem claim1_indexes_over_converted_documents
    (bm25rank vecrank : String → List String) (pd : ProcessedDocument)
    (r : EnsembleRetriever)
    (h : setup_retrievers bm25rank vecrank none none pd = Except.ok r) :
    r.bm25docs = convert_to_documents pd ∧
    r.vecdocs = convert_to_documents pd ∧
    r.bm25docs.isEmpty = false ∧
    (∀ f1 f2 e, setup_retrievers bm25rank vecrank f1 f2 pd = Except.error e →
      ∀ r2, setup_retrievers bm25rank vecrank f1 f2 pd ≠ Except.ok r2) := by
  have hr := setup_retrievers_ok bm25rank vecrank pd r h
  subst hr
  refine ⟨rfl, rfl, convert_to_documents_ne_nil pd, ?_⟩
  intro f1 f2 e herr r2 hok
  rw [herr] at hok
  exact Except.noConfusion hok

/-- Witness for the corrected C1 at a concrete document. -/
theorem claim1_witness :
    (setup_retrievers (fun _ => []) (fun _ => []) none none
        ⟨"body", "other", ⟨"f.pdf", "t0", 1⟩, ["SECTION 1 A"]⟩ =
      Except.ok ⟨convert_to_documents ⟨"body", "other", ⟨"f.pdf", "t0", 1⟩, ["SECTION 1 A"]⟩,
        3, (fun _ => []),
        convert_to_documents ⟨"body", "other", ⟨"f.pdf", "t0", 1⟩, ["SECTION 1 A"]⟩,
        2, (fun _ => []), [1/2, 1/2]⟩) ∧
    (⟨convert_to_documents ⟨"body", "other", ⟨"f.pdf", "t0", 1⟩, ["SECTION 1 A"]⟩,
        3, (fun _ => []),
        convert_to_documents ⟨"body", "other", ⟨"f.pdf", "t0", 1⟩, ["SECTION 1 A"]⟩,
        2, (fun _ => []), [1/2, 1/2]⟩ : EnsembleRetriever).bm25docs =
      convert_to_documents ⟨"body", "other", ⟨"f.pdf", "t0", 1⟩, ["SECTION 1 A"]⟩ :=
  ⟨rfl, (claim1_indexes_over_converted_documents (fun _ => []) (fun _ => [])
    ⟨"body", "other", ⟨"f.pdf", "t0", 1⟩, ["SECTION 1 A"]⟩ _ rfl).1⟩

/-- Claim C2: the classifier lower-cases, counts each category's
keyword hits, returns the first-declared category with the maximal
non-zero count and `other` exactly when all counts are zero (stated as
agreement with the spec-side selection rule `specSelect`); and the
spec's scenario: a text with 3 claim-category hits and 1
policy-category hit is classified `claim_report`. -/
theorem claim2_classifier :
    (∀ content, detect_document_type content = specSelect (categoryMatches content)) ∧
    categoryMatches "the claim describes an incident with damage to the policy holder" =
      [("claim_report", 3), ("policy_document", 1), ("medical_report", 0),
       ("invoice", 0), ("correspondence", 0)] ∧
    detect_document_type "the claim describes an incident with damage to the policy holder"
      = "claim_report" :=
  ⟨detect_eq_specSelect, by decide, by decide⟩

/-- Claim C3, counterexample: `clean_text` is not idempotent; removing
the disallowed "@" from "a @ b" leaves the double space "a  b", which a
second application collapses to "a b". -/
theorem claim3_counterexample :
    clean_text (clean_text "a @ b") ≠ clean_text "a @ b" := by decide

/-- Claim C3 (corrected): `clean_text` is idempotent on every input
whose characters are all allowed (alphanumeric or allow-listed
punctuation) or whitespace -- exactly the inputs on which the character
filter removes nothing, so no new whitespace runs can appear. -/
theorem claim3_clean_text_idempotent_on_allowed (t : String)
    (h : ∀ c ∈ t.data, allowedChar c = true ∨ pyIsSpace c = true) :
    clean_text (clean_text t) = clean_text t := by
  by_cases ht : t = ""
  · subst ht; rfl
  · have h1 : clean_text t = String.mk (cleanList t.data) := by
      rw [clean_text, if_neg ht]
    rw [h1]
    by_cases hz : String.mk (cleanList t.data) = ""
    · rw [hz]; rfl
    · rw [clean_text, if_neg hz]
      exact congrArg String.mk (cleanList_idem_of_allowed t.data h)

/-- Witness for the corrected C3 at a concrete input. -/
theorem claim3_witness :
    (∀ c ∈ ("ab  cd!" : String).data, allowedChar c = true ∨ pyIsSpace c = true) ∧
    clean_text (clean_text "ab  cd!") = clean_text "ab  cd!" :=
  ⟨by decide, claim3_clean_text_idempotent_on_allowed "ab  cd!" (by decide)⟩

/-- Claim C4, counterexample: with an empty chunk set (no sections,
empty content) `setup_retrievers` does not fail with EmptyInput: the
conversion falls back to the single empty content string, and an index
over [""] is returned. -/
theorem claim4_counterexample :
    (setup_retrievers (fun _ => []) (fun _ => []) none none
        ⟨"", documentTypeClaim, ⟨"", "", 0⟩, []⟩ ≠
      Except.error RetrieverError.emptyInput) ∧
    ((setup_retrievers (fun _ => []) (fun _ => []) none none
        ⟨"", documentTypeClaim, ⟨"", "", 0⟩, []⟩).toOption.map
      (fun r => r.bm25docs.map (fun d => d.page_content))) = some [""] := by
  have hok : setup_retrievers (fun _ => []) (fun _ => []) none none
      ⟨"", documentTypeClaim, ⟨"", "", 0⟩, []⟩ =
      Except.ok ⟨convert_to_documents ⟨"", documentTypeClaim, ⟨"", "", 0⟩, []⟩,
        3, (fun _ => []),
        convert_to_documents ⟨"", documentTypeClaim, ⟨"", "", 0⟩, []⟩,
        2, (fun _ => []), [1/2, 1/2]⟩ := rfl
  constructor
  · rw [hok]
    exact fun hcontra => Except.noConfusion hcontra
  · rw [hok]
    decide

/-- Claim C4 (corrected): `_convert_to_documents` always yields at
least one document (the sections, or the full content as a single
fallback document), so the EmptyInput guard of `setup_retrievers` is
unreachable and the call never fails with EmptyInput; a build failure
of the BM25 index or of the vector index propagates to the caller as an
error (no silent degradation to a single-retriever result). -/
theorem claim4_no_emptyInput_and_propagation :
    (∀ pd, (convert_to_documents pd).isEmpty = false) ∧
    (∀ bm25rank vecrank f1 f2 pd,
      setup_retrievers bm25rank vecrank f1 f2 pd ≠
        Except.error RetrieverError.emptyInput) ∧
    (∀ bm25rank vecrank e f2 pd,
      setup_retrievers bm25rank vecrank (some e) f2 pd =
        Except.error (RetrieverError.buildFailure e)) ∧
    (∀ bm25rank vecrank e pd,
      setup_retrievers bm25rank vecrank none (some e) pd =
        Except.error (RetrieverError.buildFailure e)) := by
  refine ⟨convert_to_documents_ne_nil, ?_, ?_, ?_⟩
  · intro r1 r2 f1 f2 pd hcontra
    rw [setup_retrievers.eq_def] at hcontra
    simp only [convert_to_documents_ne_nil pd, Bool.false_eq_true, if_false] at hcontra
    cases f1 with
    | some e => exact RetrieverError.noConfusion (Except.error.inj hcontra)
    | none =>
      cases f2 with
      | some e => exact RetrieverError.noConfusion (Except.error.inj hcontra)
      | none => exact Except.noConfusion hcontra
  · intro r1 r2 e f2 pd
    rw [setup_retrievers.eq_def]
    simp only [convert_to_documents_ne_nil pd, Bool.false_eq_true, if_false]
  · intro r1 r2 e pd
    rw [setup_retrievers.eq_def]
    simp only [convert_to_documents_ne_nil pd, Bool.false_eq_true, if_false]

/-- Claim C5, counterexample: a structured text (6 header matches) whose
sections, concatenated, do not reproduce the input -- the newline
separating consecutive sections is dropped by the split. -/
theorem claim5_counterexample :
    detect_structure_type "SCOPE:\nSCOPE:\nSCOPE:\nSCOPE:\nSCOPE:\nSCOPE:" = "structured" ∧
    String.join (split_by_sections "SCOPE:\nSCOPE:\nSCOPE:\nSCOPE:\nSCOPE:\nSCOPE:") ≠
      "SCOPE:\nSCOPE:\nSCOPE:\nSCOPE:\nSCOPE:\nSCOPE:" := by
  refine ⟨by decide, by decide⟩

/-- Claim C5 (corrected): for every text classified as structured,
joining the sections returned by `split_by_sections` with single
newlines (rather than bare concatenation) reproduces the input text
exactly: the splitter partitions the line list and only the newlines
between sections are not carried inside any section. -/
theorem claim5_sections_join_with_newlines (text : String)
    (h : detect_structure_type text = "structured") :
    List.intercalate ['\n'] (split_by_sections_core text.data) = text.data := by
  rw [split_by_sections_core,
    intercalate_map_join _ (sbAux_groups_ne_nil _ _),
    sbAux_join, List.nil_append, intercalate_splitOnPred_nl]

/-- Witness for the corrected C5 at a concrete structured text. -/
theorem claim5_witness :
    detect_structure_type "SCOPE:\nSCOPE:\nSCOPE:\nSCOPE:\nSCOPE:\nSCOPE:" = "structured" ∧
    List.intercalate ['\n']
        (split_by_sections_core ("SCOPE:\nSCOPE:\nSCOPE:\nSCOPE:\nSCOPE:\nSCOPE:" : String).data) =
      ("SCOPE:\nSCOPE:\nSCOPE:\nSCOPE:\nSCOPE:\nSCOPE:" : String).data :=
  ⟨by decide, claim5_sections_join_with_newlines _ (by decide)⟩

/-- Claim C6: the structured profile passes separators
["\n\n", "\n", " "], size 1000, overlap 200, keep_separator,
add_start_index and strip_whitespace; every other structure type gets
separators ["\n\n", "\n", ".", " "], size 500, overlap 50 and
discarded separators (langchain defaults for the rest). -/
theorem claim6_splitter_profiles :
    create_text_splitter "structured" = ⟨["\n\n", "\n", " "], 1000, 200, true, true, true⟩ ∧
    create_text_splitter "standard" = ⟨["\n\n", "\n", ".", " "], 500, 50, false, false, true⟩ :=
  ⟨rfl, rfl⟩

/-- Claim C7: a retriever built by `setup_retrievers` serves the top 3
lexical and top 2 vector results, fuses them with weights 0.5/0.5 (a
chunk in both lists gets the sum of its two weighted contributions and
appears only once), and returns a deduplicated list of at most 5
entries ordered by descending fused score. -/
theorem claim7_retrieval_fusion
    (bm25rank vecrank : String → List String) (pd : ProcessedDocument)
    (r : EnsembleRetriever) (q : String)
    (h : setup_retrievers bm25rank vecrank none none pd = Except.ok r) :
    r.bm25k = 3 ∧ r.veck = 2 ∧ r.weights = [1/2, 1/2] ∧
    (retrieve_relevant_context r q).length ≤ 5 ∧
    ((retrieve_relevant_context r q).map Prod.fst).Nodup ∧
    (∀ d, d ∈ (r.bm25rank q).take r.bm25k ∨ d ∈ (r.vecrank q).take r.veck →
      (d, fusedScore (1/2) (1/2) ((r.bm25rank q).take r.bm25k)
          ((r.vecrank q).take r.veck) d) ∈ retrieve_relevant_context r q) ∧
    (retrieve_relevant_context r q).Pairwise (fun a b => b.2 ≤ a.2) := by
  have hr := setup_retrievers_ok bm25rank vecrank pd r h
  subst hr
  obtain ⟨hlen, hnodup, hmem, hsorted⟩ := ensembleFuse_spec (1/2) (1/2)
    ((bm25rank q).take 3) ((vecrank q).take 2)
  refine ⟨rfl, rfl, rfl, ?_, hnodup, hmem, hsorted⟩
  have h1 : ((bm25rank q).take 3).length ≤ 3 := by
    rw [List.length_take]
    exact Nat.min_le_left _ _
  have h2 : ((vecrank q).take 2).length ≤ 2 := by
    rw [List.length_take]
    exact Nat.min_le_left _ _
  exact le_trans hlen (by omega)

/-- Witness for C7 at a concrete retriever and query. -/
theorem claim7_witness :
    (setup_retrievers (fun _ => ["a", "b", "c"]) (fun _ => ["b", "d"]) none none
        ⟨"x", "other", ⟨"f", "t", 0⟩, []⟩ =
      Except.ok ⟨convert_to_documents ⟨"x", "other", ⟨"f", "t", 0⟩, []⟩, 3,
        (fun _ => ["a", "b", "c"]), convert_to_documents ⟨"x", "other", ⟨"f", "t", 0⟩, []⟩,
        2, (fun _ => ["b", "d"]), [1/2, 1/2]⟩) ∧
    ((retrieve_relevant_context (⟨convert_to_documents ⟨"x", "other", ⟨"f", "t", 0⟩, []⟩, 3,
        (fun _ => ["a", "b", "c"]), convert_to_documents ⟨"x", "other", ⟨"f", "t", 0⟩, []⟩,
        2, (fun _ => ["b", "d"]), [1/2, 1/2]⟩ : EnsembleRetriever) "q").length ≤ 5) :=
  ⟨rfl, ((claim7_retrieval_fusion (fun _ => ["a", "b", "c"]) (fun _ => ["b", "d"])
    ⟨"x", "other", ⟨"f", "t", 0⟩, []⟩ _ "q" rfl).2.2.2).1⟩

/-- Claim C8 (code bug): the structured path stores on `section_header`
the raw `re.Match` of the chunk's own stripped prefix -- here matching
only "Section 12" -- rather than the section header text: the header
line of this single-chunk section is the whole line, which differs from
the stored match. -/
theorem claim8_section_header_is_match_object :
    (mkStructuredChunk "doc.pdf" "other" "Section 12 COVERAGE applies here").section_header
      = some (some "Section 12") ∧
    firstLine (pyStrip ("Section 12 COVERAGE applies here" : String).data)
      = ("Section 12 COVERAGE applies here" : String).data ∧
    some "Section 12" ≠ some "Section 12 COVERAGE applies here" := by
  refine ⟨by decide, by decide, by decide⟩

/-- Claim C9: a missing source file or a loader failure makes
`process_single_document` return an empty chunk list plus a log line
naming the source, without raising; and the claim-side result of
`process_documents` depends only on the claim file, so a failing terms
file never affects processing of its sibling. -/
theorem claim9_failures_skipped_and_siblings_processed :
    (∀ splitText fs path, fs path = LoadResult.notFound →
      process_single_document splitText fs path =
        ([], ["File not found: " ++ path])) ∧
    (∀ splitText fs path e, fs path = LoadResult.loadError e →
      process_single_document splitText fs path =
        ([], ["Error processing " ++ path ++ ": " ++ e])) ∧
    (∀ splitText fs fs2 now t c, fs c = fs2 c →
      (process_documents splitText fs now t c).2 =
        (process_documents splitText fs2 now t c).2) := by
  refine ⟨?_, ?_, ?_⟩
  · intro st fs path h
    rw [process_single_document.eq_def, h]
  · intro st fs path e h
    rw [process_single_document.eq_def, h]
  · intro st fs fs2 now t c h
    rw [process_documents, process_documents,
      process_single_document.eq_def, process_single_document.eq_def, h]
    rfl

/-- Witness for C9 at a concrete missing file and sibling batch. -/
theorem claim9_witness :
    ((fun p => if p = "missing.pdf" then LoadResult.notFound
        else LoadResult.pages ["claim incident"]) "missing.pdf" = LoadResult.notFound) ∧
    process_single_document (fun _ s => [s])
      (fun p => if p = "missing.pdf" then LoadResult.notFound
        else LoadResult.pages ["claim incident"]) "missing.pdf" =
      ([], ["File not found: " ++ "missing.pdf"]) ∧
    (process_documents (fun _ s => [s])
      (fun p => if p = "missing.pdf" then LoadResult.notFound
        else LoadResult.pages ["claim incident"]) "t0" "missing.pdf" "claim.pdf").2 =
    (process_documents (fun _ s => [s])
      (fun _ => LoadResult.pages ["claim incident"]) "t0" "missing.pdf" "claim.pdf").2 :=
  ⟨rfl,
   (claim9_failures_skipped_and_siblings_processed).1 (fun _ s => [s]) _ "missing.pdf" rfl,
   (claim9_failures_skipped_and_siblings_processed).2.2 (fun _ s => [s]) _ _ "t0"
     "missing.pdf" "claim.pdf" rfl⟩

/-- Claim C10: every character of a `clean_text` output is alphanumeric
or in the punctuation allow-list (which contains the space character);
in particular no newline or tab survives. -/
theorem claim10_clean_text_output_allowed (t : String) (c : Char)
    (hc : c ∈ (clean_text t).data) :
    (c.isAlphanum = true ∨ c ∈ allowlist) ∧ c ≠ '\n' ∧ c ≠ '\t' := by
  have hall : allowedChar c = true := by
    by_cases ht : t = ""
    · subst ht; simp [clean_text] at hc
    · rw [clean_text, if_neg ht] at hc
      have hc2 : c ∈ cleanList t.data := hc
      exact (List.mem_filter.1 hc2).2
  refine ⟨?_, ?_, ?_⟩
  · rw [allowedChar, Bool.or_eq_true] at hall
    rcases hall with h | h
    · exact Or.inl h
    · exact Or.inr (by simpa using h)
  · intro hcn
    subst hcn
    exact absurd hall (by decide)
  · intro hct
    subst hct
    exact absurd hall (by decide)

/-- Witness for C10 at a concrete input and output character. -/
theorem claim10_witness :
    'a' ∈ (clean_text "a\nb?").data ∧
    (('a'.isAlphanum = true ∨ 'a' ∈ allowlist) ∧ 'a' ≠ '\n' ∧ 'a' ≠ '\t') :=
  ⟨by decide, claim10_clean_text_output_allowed "a\nb?" 'a' (by decide)⟩
